import Mathlib

/-
Verification of the MelNet TTS core (src/model/tts.py, src/datasets/wavloader.py).

Tensors over the batch/feature axes are embedded as functions out of ℕ; the
floating-point arithmetic of the source is embedded over ℝ.  Learned linear
layers and the LSTM cell are external collaborators (torch.nn modules) and are
taken as parameters of the embedding.  List-valued data (collate, dataset
enumeration) is embedded with computable definitions over List/ℚ.
-/

noncomputable section

namespace MelNet

/-! ### Attention module (src/model/tts.py, class Attention)

`AttnParams` bundles the module's configuration and learned collaborators:
`M` is `hp.model.gmm` (the number of mixture components K), `D` is
`hp.model.hidden`, `Wg` is the learned linear layer `W_g : hidden → 3*M`
applied to a hidden vector, and `cell` is the `nn.LSTMCell` mapping the
concatenated input and the previous (h, c) pair to the new (h, c) pair. -/

structure AttnParams where
  M : ℕ
  D : ℕ
  Wg : (ℕ → ℝ) → ℕ → ℝ
  cell : (ℕ → ℝ) → (ℕ → ℝ) × (ℕ → ℝ) → (ℕ → ℝ) × (ℕ → ℝ)

/-- Logistic CDF as written in the spec: CDF(z; c, s) = 1 / (1 + exp((c - z)/s)). -/
def logisticCDF (z c s : ℝ) : ℝ := (1 + Real.exp ((c - z) / s))⁻¹

/-- `ksi_hat = torch.exp(phi_hat[:, :self.M])` — the mixture centers (line 20). -/
def ksi_hat (P : AttnParams) (h : ℕ → ℝ) (k : ℕ) : ℝ := Real.exp (P.Wg h k)

/-- `beta_hat = torch.exp(phi_hat[:, self.M:2*self.M])` — the mixture scales (line 31). -/
def beta_hat (P : AttnParams) (h : ℕ → ℝ) (k : ℕ) : ℝ := Real.exp (P.Wg h (P.M + k))

/-- `alpha_hat = F.softmax(phi_hat[:, 2*self.M:3*self.M], dim=-1)` — mixture weights (line 32). -/
def alpha_hat (P : AttnParams) (h : ℕ → ℝ) (k : ℕ) : ℝ :=
  Real.exp (P.Wg h (2 * P.M + k)) / ∑ j ∈ Finset.range P.M, Real.exp (P.Wg h (2 * P.M + j))

/-- `self.u_R = self.u + 0.5` for memory position u (line 35). -/
def u_R (u : ℕ) : ℝ := (u : ℝ) + 0.5

/-- `self.u_L = self.u - 0.5` for memory position u (line 36). -/
def u_L (u : ℕ) : ℝ := (u : ℝ) - 0.5

/-- `term1` (lines 38-39): sum over components of
`alpha_hat * reciprocal(1 + exp((ksi_hat - u_R) / beta_hat))`. -/
def term1 (P : AttnParams) (h : ℕ → ℝ) (u : ℕ) : ℝ :=
  ∑ k ∈ Finset.range P.M,
    alpha_hat P h k * (1 + Real.exp ((ksi_hat P h k - u_R u) / beta_hat P h k))⁻¹

/-- `term2` (lines 41-42): the same sum at the left boundary `u_L`. -/
def term2 (P : AttnParams) (h : ℕ → ℝ) (u : ℕ) : ℝ :=
  ∑ k ∈ Finset.range P.M,
    alpha_hat P h k * (1 + Real.exp ((ksi_hat P h k - u_L u) / beta_hat P h k))⁻¹

/-- `weights = (term1-term2)` (line 44): alignment weight at memory position u. -/
def weights (P : AttnParams) (h : ℕ → ℝ) (u : ℕ) : ℝ := term1 P h u - term2 P h u

/-- `context = torch.bmm(weights, memory)` (line 47): weighted sum of the `Tm`
memory rows, one scalar per hidden dimension d. -/
def context (P : AttnParams) (memory : ℕ → ℕ → ℝ) (Tm : ℕ) (h : ℕ → ℝ) (d : ℕ) : ℝ :=
  ∑ u ∈ Finset.range Tm, weights P h u * memory u d

/-- `termination` (lines 49-51): `1 - torch.sum(alpha_hat * reciprocal(1 + exp((ksi_hat
- u_R) / beta_hat)), dim=1)`.  The sum runs over the component axis only, so the
result is a vector indexed by the memory position u (shape (B, T) in the source). -/
def termination (P : AttnParams) (h : ℕ → ℝ) (u : ℕ) : ℝ :=
  1 - ∑ k ∈ Finset.range P.M,
    alpha_hat P h k * (1 + Real.exp ((ksi_hat P h k - u_R u) / beta_hat P h k))⁻¹

/-- Loop state of `Attention.forward` (lines 60-61): hidden vector `h`, cell
vector `c`, and the running context vector `ctx`. -/
structure AttnState where
  h : ℕ → ℝ
  c : ℕ → ℝ
  ctx : ℕ → ℝ

/-- Zero-initialised state (`new_zeros`, lines 60-61). -/
def attnInit : AttnState := ⟨fun _ => 0, fun _ => 0, fun _ => 0⟩

/-- One iteration of the loop in `Attention.forward` (lines 65-71):
`x = torch.cat([input_h_c[:, i], context], dim=-1)`, then the LSTM cell, then
`self.attention` producing the new context from the new hidden vector. -/
def attnStep (P : AttnParams) (memory : ℕ → ℕ → ℝ) (Tm : ℕ) (xi : ℕ → ℝ)
    (s : AttnState) : AttnState :=
  let x : ℕ → ℝ := fun j => if j < P.D then xi j else s.ctx (j - P.D)
  let hc := P.cell x (s.h, s.c)
  ⟨hc.1, hc.2, fun d => context P memory Tm hc.1 d⟩

/-- State of `Attention.forward` after the first `i` loop iterations, for query
sequence `q` (`input_h_c`). -/
def attnStateAt (P : AttnParams) (memory : ℕ → ℕ → ℝ) (Tm : ℕ) (q : ℕ → ℕ → ℝ) :
    ℕ → AttnState
  | 0 => attnInit
  | i + 1 => attnStep P memory Tm (q i) (attnStateAt P memory Tm q i)

/-- The hidden vector fed to `self.attention` at loop step i (0-indexed): the
output of the LSTM cell during iteration i. -/
def hiddenAt (P : AttnParams) (memory : ℕ → ℕ → ℝ) (Tm : ℕ) (q : ℕ → ℕ → ℝ) (i : ℕ) :
    ℕ → ℝ :=
  (attnStateAt P memory Tm q (i + 1)).h

/-- The per-step mixture centers used at loop step i. -/
def centerAt (P : AttnParams) (memory : ℕ → ℕ → ℝ) (Tm : ℕ) (q : ℕ → ℕ → ℝ)
    (i k : ℕ) : ℝ :=
  ksi_hat P (hiddenAt P memory Tm q i) k

/-- The per-step context `contexts[i]` accumulated by line 70 and concatenated
by line 73 (`contexts = torch.cat(contexts, dim=1)`); the source computes this
value and then drops it at the `return` on line 77. -/
def contextsSeq (P : AttnParams) (memory : ℕ → ℕ → ℝ) (Tm : ℕ) (q : ℕ → ℕ → ℝ)
    (i : ℕ) : ℕ → ℝ :=
  (attnStateAt P memory Tm q (i + 1)).ctx

/-- The alignment map `torch.cat(weights, dim=1)` (line 74): the alignment
weight of output step i at memory position u. -/
def alignmentSeq (P : AttnParams) (memory : ℕ → ℕ → ℝ) (Tm : ℕ) (q : ℕ → ℕ → ℝ)
    (i u : ℕ) : ℝ :=
  weights P (hiddenAt P memory Tm q i) u

/-- The context actually returned by `Attention.forward` (line 77 returns the
loop variable `context`, i.e. the context of the final iteration only), after a
loop of `Tq` steps (`for i in range(T)` with T the query time length). -/
def forwardContext (P : AttnParams) (memory : ℕ → ℕ → ℝ) (Tm : ℕ) (q : ℕ → ℕ → ℝ)
    (Tq : ℕ) : ℕ → ℝ :=
  (attnStateAt P memory Tm q Tq).ctx

/-- The termination value returned by `Attention.forward` (line 75):
`torch.gather(termination, 1, (input_lengths-1).unsqueeze(-1))` applied to the
termination vector left over from the final loop iteration, so the per-sample
value is the final step's termination vector at memory position
`input_lengths - 1`. -/
def forwardTermination (P : AttnParams) (memory : ℕ → ℕ → ℝ) (Tm : ℕ)
    (q : ℕ → ℕ → ℝ) (Tq L : ℕ) : ℝ :=
  termination P ((attnStateAt P memory Tm q Tq).h) (L - 1)

/-! ### TTS training-mode output head and length masking (src/model/tts.py,
TTS.forward lines 125-139)

`theta` embeds `theta_hat = self.W_theta(h_f)`, a tensor indexed by (batch b,
frequency bin m, timestep t, raw channel); `K` is `hp.model.gmm`.  The layer
stack producing `h_f` is an external collaborator. -/

/-- `mu = theta_hat[:,:,:, :self.K]` (line 127). -/
def mu (theta : ℕ → ℕ → ℕ → ℕ → ℝ) (b m t k : ℕ) : ℝ := theta b m t k

/-- `std = torch.exp(theta_hat[:,:,:, self.K:2*self.K])` (line 128). -/
def std (K : ℕ) (theta : ℕ → ℕ → ℕ → ℕ → ℝ) (b m t k : ℕ) : ℝ :=
  Real.exp (theta b m t (K + k))

/-- `pi = self.pi_softmax(theta_hat[:,:,:, 2*self.K:])` (line 129), softmax over
the component axis. -/
def pi (K : ℕ) (theta : ℕ → ℕ → ℕ → ℕ → ℝ) (b m t k : ℕ) : ℝ :=
  Real.exp (theta b m t (2 * K + k)) / ∑ j ∈ Finset.range K, Real.exp (theta b m t (2 * K + j))

/-- The length mask (lines 132-134): `idx = torch.arange(1, T+1)` and
`mask = (output_lengths.unsqueeze(-1) < idx.unsqueeze(0))`, so position (b, t)
is masked iff `output_lengths b < t + 1`. -/
def lenMask (output_lengths : ℕ → ℕ) (b t : ℕ) : Prop := output_lengths b < t + 1

instance (output_lengths : ℕ → ℕ) (b t : ℕ) : Decidable (lenMask output_lengths b t) :=
  inferInstanceAs (Decidable (_ < _))

/-- `mu = mu.masked_fill(mask, 0)` (line 136); the mask broadcasts over the
frequency and component axes. -/
def mu_masked (theta : ℕ → ℕ → ℕ → ℕ → ℝ) (output_lengths : ℕ → ℕ) (b m t k : ℕ) : ℝ :=
  if lenMask output_lengths b t then 0 else mu theta b m t k

/-- `std = std.masked_fill(mask, 1/np.sqrt(2 * np.pi))` (line 137). -/
def std_masked (K : ℕ) (theta : ℕ → ℕ → ℕ → ℕ → ℝ) (output_lengths : ℕ → ℕ)
    (b m t k : ℕ) : ℝ :=
  if lenMask output_lengths b t then 1 / Real.sqrt (2 * Real.pi) else std K theta b m t k

/-- The mixture-weight component of the value returned by `TTS.forward`
(line 139): `pi` is returned as computed on line 129, with no mask applied. -/
def forwardPi (K : ℕ) (theta : ℕ → ℕ → ℕ → ℕ → ℝ) (b m t k : ℕ) : ℝ :=
  pi K theta b m t k

/-! ### TTS inference loop (src/model/tts.py, TTS.sample lines 142-169)

The buffers `x_t` and `x_f` are embedded as lists of slices along the written
axis: `x_t` as a list of time slices (each a function of the frequency bin) of
length `T = x.size(-1)`, and `x_f` as a list of frequency slices (each a
function of the timestep) of length `M` (the number of frequency bins).  The
per-iteration mixture mean `mu` (built from the external layer stack, the
output head and the mixture weights, lines 150-164) is abstracted as the
parameter `muF`, returning a (frequency, time)-indexed matrix at each step.
Writing a slice is bounds-checked exactly as torch indexing is: writing
`x_t[:, :, i+1]` requires `i + 1 < T` and `x_f[:, i+1, :]` requires
`i + 1 < M`; an out-of-range index raises, which the embedding models as
`none`. -/

def sampleLoop (muF : ℕ → List (ℕ → ℝ) → List (ℕ → ℝ) → ℕ → ℕ → ℝ) :
    ℕ → ℕ → List (ℕ → ℝ) → List (ℕ → ℝ) → Option (List (ℕ → ℝ) × List (ℕ → ℝ))
  | _, 0, xt, xf => some (xt, xf)
  | i, fuel + 1, xt, xf =>
    let m := muF i xt xf
    if i + 1 < xt.length ∧ i + 1 < xf.length then
      sampleLoop muF (i + 1) fuel (xt.set (i + 1) (fun mm => m mm i))
        (xf.set (i + 1) (fun tt => m i tt))
    else none

/-- `TTS.sample`'s loop `for i in range(x.size(-1))` (lines 149-167), started
on the cloned buffers `x_t, x_f = x.clone(), x.clone()`; the loop bound is the
time length of `x`, i.e. `xt.length`. -/
def tts_sample (muF : ℕ → List (ℕ → ℝ) → List (ℕ → ℝ) → ℕ → ℕ → ℝ)
    (xt xf : List (ℕ → ℝ)) : Option (List (ℕ → ℝ) × List (ℕ → ℝ)) :=
  sampleLoop muF 0 xt.length xt xf

/-! ### Batch Assembler (src/datasets/wavloader.py, TextCollate / AudioCollate)

Spectrogram samples are embedded in the time-major view `[time][freq]` that the
source reaches via `torch.from_numpy(x.T)` before `pad_sequence` and leaves via
`.transpose(1, 2)` after it; `F` is the fixed frequency-bin count, so a zero
padding frame is `List.replicate F 0`.  Token sequences are lists of integers. -/

/-- Right-pad one sample to length `n` with copies of the zero element `z`
(what `pad_sequence` does to each sequence shorter than the batch maximum). -/
def padTo {α : Type} (z : α) (n : ℕ) (x : List α) : List α :=
  x ++ List.replicate (n - x.length) z

/-- The maximum length across the batch along the variable axis. -/
def batchMax {α : Type} (l : List (List α)) : ℕ := (l.map List.length).foldr max 0

/-- `torch.nn.utils.rnn.pad_sequence(·, batch_first=True)`: right-pad every
sample with zeros to the batch maximum, keeping the input order. -/
def padSequence {α : Type} (z : α) (l : List (List α)) : List (List α) :=
  l.map (padTo z (batchMax l))

/-- `TextCollate.__call__` (lines 148-164): a batch element is
(token sequence, source tier, target tier); returns
(seq_padded, text_lengths, source_padded, target_padded, audio_lengths), where
`text_lengths` records each token sequence's length and `audio_lengths` records
each source tier's time length (`x[1].shape[1]`). -/
def TextCollate (F : ℕ) (batch : List (List ℤ × List (List ℝ) × List (List ℝ))) :
    List (List ℤ) × List ℕ × List (List (List ℝ)) × List (List (List ℝ)) × List ℕ :=
  let seq := batch.map (fun x => x.1)
  let text_lengths := seq.map List.length
  let seq_padded := padSequence (0 : ℤ) seq
  let audio_lengths := batch.map (fun x => x.2.1.length)
  let source_padded := padSequence (List.replicate F (0 : ℝ)) (batch.map (fun x => x.2.1))
  let target_padded := padSequence (List.replicate F (0 : ℝ)) (batch.map (fun x => x.2.2))
  (seq_padded, text_lengths, source_padded, target_padded, audio_lengths)

/-- `AudioCollate.__call__` (lines 170-181): a batch element is
(source tier, target tier); returns (source_padded, target_padded,
audio_lengths) with `audio_lengths` from `x[0].shape[1]`. -/
def AudioCollate (F : ℕ) (batch : List (List (List ℝ) × List (List ℝ))) :
    List (List (List ℝ)) × List (List (List ℝ)) × List ℕ :=
  (padSequence (List.replicate F (0 : ℝ)) (batch.map (fun x => x.1)),
   padSequence (List.replicate F (0 : ℝ)) (batch.map (fun x => x.2)),
   batch.map (fun x => x.1.length))

/-! ### Sample Source (src/datasets/wavloader.py, dataset enumeration)

Durations are embedded as rationals (the source parses floats).  The module
`random.shuffle` seeded with 123 is an external stdlib collaborator, embedded
as a parameter `shuffle` constrained to permute its input.  The
`os.path.join` calls only build path strings and are dropped. -/

/-- One line of `transcript.v.1.3.txt`, already split at `'|'` into its six
fields `wav_name, _, _, text, length, _` (line 93), with the duration field
parsed (`float(length)`, line 96). -/
structure KSSLine where
  wav_name : String
  field2 : String
  field3 : String
  text : String
  length : ℚ
  field6 : String

/-- The KSS enumeration loop (lines 90-98): keep `(wav_name, text)` exactly for
the lines with `duration < hp.audio.duration`, in file order. -/
def kssDataset (maxDur : ℚ) (lines : List KSSLine) : List (String × String) :=
  (lines.filter (fun l => l.length < maxDur)).map (fun l => (l.wav_name, l.text))

/-- `lines[::3]`: every third element starting at index 0. -/
def everyThird {α : Type} : List α → List α
  | [] => []
  | [a] => [a]
  | [a, _] => [a]
  | a :: _ :: _ :: rest => a :: everyThird rest

/-- The Blizzard enumeration loop (lines 101-110): `filenames = lines[::3]`,
`sentences = lines[1::3]`, zipped, keeping the pairs whose audio length
(`get_length`, an external collaborator embedded as `getLen`) is strictly below
the configured maximum. -/
def blizzardDataset (maxDur : ℚ) (getLen : String → ℚ) (lines : List String) :
    List (String × String) :=
  ((everyThird lines).zip (everyThird (lines.drop 1))).filter
    (fun p => getLen p.1 < maxDur)

/-- The 95/5 positional split applied after the shuffle (lines 55-58 and
116-119): training takes the first `int(0.95 * n)` elements, validation the
rest. -/
def split95 {α : Type} (train : Bool) (l : List α) : List α :=
  if train then l.take (19 * l.length / 20) else l.drop (19 * l.length / 20)

/-- `AudioTextDataset.__init__` for `hp.data.name == 'KSS'`: enumerate, filter
by duration, shuffle (seed 123), split. -/
def audioTextKSS (maxDur : ℚ) (lines : List KSSLine)
    (shuffle : List (String × String) → List (String × String)) (train : Bool) :
    List (String × String) :=
  split95 train (shuffle (kssDataset maxDur lines))

/-- `AudioTextDataset.__init__` for `hp.data.name == 'Blizzard'`. -/
def audioTextBlizzard (maxDur : ℚ) (getLen : String → ℚ) (lines : List String)
    (shuffle : List (String × String) → List (String × String)) (train : Bool) :
    List (String × String) :=
  split95 train (shuffle (blizzardDataset maxDur getLen lines))

/-- `AudioOnlyDataset.__init__` (lines 38-64): the glob file list is shuffled
and split, with no duration filtering anywhere in the constructor. -/
def audioOnlyFileList (files : List String) (shuffle : List String → List String)
    (train : Bool) : List String :=
  split95 train (shuffle files)

/-! ### TTS constructor tier check (src/model/tts.py, TTS.__init__ lines 82-86) -/

/-- The surviving configuration of a constructed Sequence Model. -/
structure TTSModel where
  tierN : ℤ

/-- `assert tierN==1, 'TTS tier must be 1'` (line 85): construction either
yields a model with `self.tierN = tierN` or raises an AssertionError carrying
the given message. -/
def tts_init (tierN : ℤ) : Except String TTSModel :=
  if tierN = 1 then Except.ok ⟨tierN⟩ else Except.error "TTS tier must be 1"

/-! ### Concrete instances used by witnesses and counterexamples -/

/-- Attention parameters with one mixture component, hidden size one, the zero
projection and an LSTM cell that keeps its state (used by witnesses where only
the shape of the computation matters). -/
def P0 : AttnParams := ⟨1, 1, fun _ _ => 0, fun _ p => p⟩

/-- Attention parameters with one mixture component whose LSTM cell maps its
state to the input (so the hidden state, and with it the mixture parameters,
genuinely changes from step to step). -/
def P1 : AttnParams := ⟨1, 1, fun h _ => h 0, fun x _ => (x, x)⟩

/-- Attention parameters with one mixture component and a cell that resets the
state to zero at every step. -/
def P2 : AttnParams := ⟨1, 1, fun _ _ => 0, fun _ _ => (fun _ => 0, fun _ => 0)⟩

/-- A memory of a single row of ones. -/
def memOne : ℕ → ℕ → ℝ := fun _ _ => 1

/-- A query sequence that is zero at step 0 and one at every later step. -/
def qStep : ℕ → ℕ → ℝ := fun i _ => if i = 0 then 0 else 1

/-- The concrete transcript line used by the Sample Source witness. -/
def kssLineEx : KSSLine := ⟨"a", "", "", "t", 1, ""⟩

/-- A concrete two-sample text batch (token sequences of lengths 1 and 2,
spectrograms of time lengths 1 and 2) for the Batch Assembler witness. -/
def exTextBatch : List (List ℤ × List (List ℝ) × List (List ℝ)) :=
  [([1], [[2]], [[3]]), ([4, 5], [[6], [7]], [[8], [9]])]

/-- A concrete two-sample audio batch for the Batch Assembler witness. -/
def exAudioBatch : List (List (List ℝ) × List (List ℝ)) :=
  [([[1]], [[2]]), ([[3], [4]], [[5], [6]])]

/-! ### Shared helper lemmas -/

theorem one_add_exp_pos (x : ℝ) : 0 < 1 + Real.exp x := by positivity

theorem inv_one_add_exp_lt {a b : ℝ} (hab : a < b) :
    (1 + Real.exp b)⁻¹ < (1 + Real.exp a)⁻¹ := by
  have h1 : 0 < 1 + Real.exp a := one_add_exp_pos a
  have h2 : 1 + Real.exp a < 1 + Real.exp b := by
    have := Real.exp_lt_exp.mpr hab
    linarith
  exact inv_strictAnti₀ h1 h2

theorem logisticCDF_pos (z c s : ℝ) : 0 < logisticCDF z c s := by
  unfold logisticCDF
  positivity

theorem logisticCDF_le_one (z c s : ℝ) : logisticCDF z c s ≤ 1 := by
  unfold logisticCDF
  apply inv_le_one_of_one_le₀
  linarith [Real.exp_pos ((c - z) / s)]

theorem logisticCDF_mono {z w : ℝ} (c : ℝ) {s : ℝ} (hs : 0 < s) (hzw : z ≤ w) :
    logisticCDF z c s ≤ logisticCDF w c s := by
  rcases eq_or_lt_of_le hzw with h | h
  · rw [h]
  · have harg : (c - w) / s < (c - z) / s := by
      apply div_lt_div_of_pos_right ?_ hs
      linarith
    exact le_of_lt (inv_one_add_exp_lt harg)

theorem beta_hat_pos (P : AttnParams) (h : ℕ → ℝ) (k : ℕ) : 0 < beta_hat P h k :=
  Real.exp_pos _

theorem alpha_hat_nonneg (P : AttnParams) (h : ℕ → ℝ) (k : ℕ) : 0 ≤ alpha_hat P h k := by
  unfold alpha_hat
  apply div_nonneg (Real.exp_pos _).le
  exact Finset.sum_nonneg fun j _ => (Real.exp_pos _).le

theorem sum_alpha_hat (P : AttnParams) (h : ℕ → ℝ) (hM : 0 < P.M) :
    ∑ k ∈ Finset.range P.M, alpha_hat P h k = 1 := by
  unfold alpha_hat
  rw [← Finset.sum_div]
  apply div_self
  have hpos : 0 < ∑ j ∈ Finset.range P.M, Real.exp (P.Wg h (2 * P.M + j)) :=
    Finset.sum_pos (fun j _ => Real.exp_pos _)
      (Finset.nonempty_range_iff.mpr (by omega))
  exact ne_of_gt hpos

theorem term1_eq (P : AttnParams) (h : ℕ → ℝ) (u : ℕ) :
    term1 P h u = ∑ k ∈ Finset.range P.M,
      alpha_hat P h k * logisticCDF (u_R u) (ksi_hat P h k) (beta_hat P h k) := rfl

theorem term2_eq (P : AttnParams) (h : ℕ → ℝ) (u : ℕ) :
    term2 P h u = ∑ k ∈ Finset.range P.M,
      alpha_hat P h k * logisticCDF (u_L u) (ksi_hat P h k) (beta_hat P h k) := rfl

theorem weights_eq_sum (P : AttnParams) (h : ℕ → ℝ) (u : ℕ) :
    weights P h u = ∑ k ∈ Finset.range P.M,
      alpha_hat P h k *
        (logisticCDF (u_R u) (ksi_hat P h k) (beta_hat P h k) -
         logisticCDF (u_L u) (ksi_hat P h k) (beta_hat P h k)) := by
  unfold weights
  rw [term1_eq, term2_eq, ← Finset.sum_sub_distrib]
  exact Finset.sum_congr rfl fun k _ => (mul_sub _ _ _).symm

theorem weights_nonneg (P : AttnParams) (h : ℕ → ℝ) (u : ℕ) : 0 ≤ weights P h u := by
  rw [weights_eq_sum]
  apply Finset.sum_nonneg
  intro k _
  apply mul_nonneg (alpha_hat_nonneg P h k)
  have hmono := logisticCDF_mono (ksi_hat P h k) (beta_hat_pos P h k)
      (show u_L u ≤ u_R u by unfold u_L u_R; linarith)
  linarith

theorem weights_le_one (P : AttnParams) (h : ℕ → ℝ) (u : ℕ) (hM : 0 < P.M) :
    weights P h u ≤ 1 := by
  rw [weights_eq_sum]
  calc ∑ k ∈ Finset.range P.M,
        alpha_hat P h k *
          (logisticCDF (u_R u) (ksi_hat P h k) (beta_hat P h k) -
           logisticCDF (u_L u) (ksi_hat P h k) (beta_hat P h k))
      ≤ ∑ k ∈ Finset.range P.M, alpha_hat P h k * 1 := by
        apply Finset.sum_le_sum
        intro k _
        apply mul_le_mul_of_nonneg_left ?_ (alpha_hat_nonneg P h k)
        have h1 := logisticCDF_le_one (u_R u) (ksi_hat P h k) (beta_hat P h k)
        have h2 := logisticCDF_pos (u_L u) (ksi_hat P h k) (beta_hat P h k)
        linarith
    _ = ∑ k ∈ Finset.range P.M, alpha_hat P h k := by simp
    _ = 1 := sum_alpha_hat P h hM

theorem sum_weights_le_one (P : AttnParams) (h : ℕ → ℝ) (Tm : ℕ) (hM : 0 < P.M) :
    ∑ u ∈ Finset.range Tm, weights P h u ≤ 1 := by
  have key : ∑ u ∈ Finset.range Tm, weights P h u
      = ∑ k ∈ Finset.range P.M,
          alpha_hat P h k *
            (logisticCDF ((Tm : ℝ) - 0.5) (ksi_hat P h k) (beta_hat P h k) -
             logisticCDF ((0 : ℝ) - 0.5) (ksi_hat P h k) (beta_hat P h k)) := by
    have hswap : ∑ u ∈ Finset.range Tm, weights P h u
        = ∑ k ∈ Finset.range P.M, ∑ u ∈ Finset.range Tm,
            alpha_hat P h k *
              (logisticCDF (u_R u) (ksi_hat P h k) (beta_hat P h k) -
               logisticCDF (u_L u) (ksi_hat P h k) (beta_hat P h k)) := by
      rw [← Finset.sum_comm]
      exact Finset.sum_congr rfl fun u _ => weights_eq_sum P h u
    rw [hswap]
    apply Finset.sum_congr rfl
    intro k _
    rw [← Finset.mul_sum]
    congr 1
    have hterm : ∀ u : ℕ,
        logisticCDF (u_R u) (ksi_hat P h k) (beta_hat P h k) -
          logisticCDF (u_L u) (ksi_hat P h k) (beta_hat P h k)
        = (fun n : ℕ => logisticCDF ((n : ℝ) - 0.5) (ksi_hat P h k) (beta_hat P h k)) (u + 1)
          - (fun n : ℕ => logisticCDF ((n : ℝ) - 0.5) (ksi_hat P h k) (beta_hat P h k)) u := by
      intro u
      have hR : u_R u = ((u + 1 : ℕ) : ℝ) - 0.5 := by
        unfold u_R
        push_cast
        ring
      have hL : u_L u = ((u : ℕ) : ℝ) - 0.5 := rfl
      rw [hR, hL]
    calc ∑ u ∈ Finset.range Tm,
          (logisticCDF (u_R u) (ksi_hat P h k) (beta_hat P h k) -
           logisticCDF (u_L u) (ksi_hat P h k) (beta_hat P h k))
        = ∑ u ∈ Finset.range Tm,
            ((fun n : ℕ => logisticCDF ((n : ℝ) - 0.5) (ksi_hat P h k) (beta_hat P h k)) (u + 1)
             - (fun n : ℕ => logisticCDF ((n : ℝ) - 0.5) (ksi_hat P h k) (beta_hat P h k)) u) :=
          Finset.sum_congr rfl fun u _ => hterm u
      _ = logisticCDF ((Tm : ℝ) - 0.5) (ksi_hat P h k) (beta_hat P h k)
            - logisticCDF ((0 : ℝ) - 0.5) (ksi_hat P h k) (beta_hat P h k) := by
          rw [Finset.sum_range_sub
            (fun n : ℕ => logisticCDF ((n : ℝ) - 0.5) (ksi_hat P h k) (beta_hat P h k)) Tm]
          norm_num
  rw [key]
  calc ∑ k ∈ Finset.range P.M,
        alpha_hat P h k *
          (logisticCDF ((Tm : ℝ) - 0.5) (ksi_hat P h k) (beta_hat P h k) -
           logisticCDF ((0 : ℝ) - 0.5) (ksi_hat P h k) (beta_hat P h k))
      ≤ ∑ k ∈ Finset.range P.M, alpha_hat P h k * 1 := by
        apply Finset.sum_le_sum
        intro k _
        apply mul_le_mul_of_nonneg_left ?_ (alpha_hat_nonneg P h k)
        have h1 := logisticCDF_le_one ((Tm : ℝ) - 0.5) (ksi_hat P h k) (beta_hat P h k)
        have h2 := logisticCDF_pos ((0 : ℝ) - 0.5) (ksi_hat P h k) (beta_hat P h k)
        linarith
    _ = ∑ k ∈ Finset.range P.M, alpha_hat P h k := by simp
    _ = 1 := sum_alpha_hat P h hM

/-! ### Claim theorems -/

/-- C1: at every forward step of the attention module, the alignment weight at
memory position u equals the sum over mixture components of the mixture weight
times the logistic-CDF difference at the slot boundaries u ± 0.5, with centers
`exp` of the first K raw projection outputs, scales `exp` of the next K, and
mixture weights the softmax of the last K (these three are the definitions
`ksi_hat`, `beta_hat`, `alpha_hat`); and the context vector is the weighted sum
of the memory rows under those alignment weights. -/
theorem attention_step_spec (P : AttnParams) (h : ℕ → ℝ) (memory : ℕ → ℕ → ℝ)
    (Tm : ℕ) (u d : ℕ) (_hT : 1 ≤ Tm) (_hu : u < Tm) :
    weights P h u = ∑ k ∈ Finset.range P.M,
        alpha_hat P h k *
          (logisticCDF (u_R u) (ksi_hat P h k) (beta_hat P h k) -
           logisticCDF (u_L u) (ksi_hat P h k) (beta_hat P h k)) ∧
    context P memory Tm h d = ∑ v ∈ Finset.range Tm, weights P h v * memory v d :=
  ⟨weights_eq_sum P h u, rfl⟩

/-- Witness for C1 at a concrete instance (T = 1, K = 1, u = 0). -/
theorem attention_step_spec_witness :
    ((1 : ℕ) ≤ 1 ∧ (0 : ℕ) < 1) ∧
    weights P0 (fun _ => 0) 0 = ∑ k ∈ Finset.range P0.M,
        alpha_hat P0 (fun _ => 0) k *
          (logisticCDF (u_R 0) (ksi_hat P0 (fun _ => 0) k) (beta_hat P0 (fun _ => 0) k) -
           logisticCDF (u_L 0) (ksi_hat P0 (fun _ => 0) k) (beta_hat P0 (fun _ => 0) k)) ∧
    context P0 memOne 1 (fun _ => 0) 0
      = ∑ v ∈ Finset.range 1, weights P0 (fun _ => 0) v * memOne v 0 :=
  ⟨⟨by decide, by decide⟩,
   (attention_step_spec P0 (fun _ => 0) memOne 1 0 0 (by decide) (by decide)).1,
   (attention_step_spec P0 (fun _ => 0) memOne 1 0 0 (by decide) (by decide)).2⟩

/-- C4: for every mixture parameterization produced by the projection (centers
and scales positive via exp, mixture weights a softmax) and every memory length
T ≥ 1, each alignment weight lies in [0, 1] and the total mass over the T
positions is at most 1. -/
theorem alignment_weights_bounded (P : AttnParams) (h : ℕ → ℝ) (Tm : ℕ)
    (hM : 0 < P.M) (_hT : 1 ≤ Tm) :
    (∀ u, 0 ≤ weights P h u ∧ weights P h u ≤ 1) ∧
    ∑ u ∈ Finset.range Tm, weights P h u ≤ 1 :=
  ⟨fun u => ⟨weights_nonneg P h u, weights_le_one P h u hM⟩,
   sum_weights_le_one P h Tm hM⟩

/-- Witness for C4 at a concrete instance (K = 1, T = 1). -/
theorem alignment_weights_bounded_witness :
    ((0 : ℕ) < 1 ∧ (1 : ℕ) ≤ 1) ∧
    (0 ≤ weights P0 (fun _ => 0) 0 ∧ weights P0 (fun _ => 0) 0 ≤ 1) ∧
    ∑ u ∈ Finset.range 1, weights P0 (fun _ => 0) u ≤ 1 :=
  ⟨⟨by decide, by decide⟩,
   (alignment_weights_bounded P0 (fun _ => 0) 1 (by decide) (by decide)).1 0,
   (alignment_weights_bounded P0 (fun _ => 0) 1 (by decide) (by decide)).2⟩

/-- C5: the mixture centers used at a loop step are exp of that step's first K
raw projection outputs of the current hidden vector, and two runs whose hidden
vectors agree at step i use identical centers there — the centers are a
function of the step's hidden state only, not a running sum over earlier
steps. -/
theorem centers_independent_per_step (P : AttnParams) (memory : ℕ → ℕ → ℝ) (Tm : ℕ)
    (q q' : ℕ → ℕ → ℝ) (i : ℕ)
    (hh : hiddenAt P memory Tm q i = hiddenAt P memory Tm q' i) :
    (∀ k, centerAt P memory Tm q i k = Real.exp (P.Wg (hiddenAt P memory Tm q i) k)) ∧
    (∀ k, centerAt P memory Tm q i k = centerAt P memory Tm q' i k) := by
  constructor
  · intro k
    rfl
  · intro k
    unfold centerAt
    rw [hh]

/-- Witness for C5: two different query sequences driven through a cell that
keeps its state have equal hidden vectors at step 0, hence equal centers. -/
theorem centers_independent_per_step_witness :
    hiddenAt P0 memOne 1 qStep 0 = hiddenAt P0 memOne 1 (fun _ _ => 2) 0 ∧
    centerAt P0 memOne 1 qStep 0 0 = Real.exp (P0.Wg (hiddenAt P0 memOne 1 qStep 0) 0) ∧
    centerAt P0 memOne 1 qStep 0 0 = centerAt P0 memOne 1 (fun _ _ => 2) 0 0 :=
  ⟨rfl,
   (centers_independent_per_step P0 memOne 1 qStep (fun _ _ => 2) 0 rfl).1 0,
   (centers_independent_per_step P0 memOne 1 qStep (fun _ _ => 2) 0 rfl).2 0⟩

/-- C2 (amended): at every output step the attention module computes a
termination vector over memory positions, whose entry at position u is
1 − Σ_k mix_weight_k · CDF(u + 0.5; center_k, scale_k); `Attention.forward`
keeps only the final loop iteration's vector and gathers it per sample at
memory position `input_lengths − 1`, so the returned termination value is that
final step's entry at position L − 1, where L is the `input_lengths` entry (the
text length), not a per-output-step value at the sample's output length − 1. -/
theorem forward_termination_eq (P : AttnParams) (memory : ℕ → ℕ → ℝ) (Tm : ℕ)
    (q : ℕ → ℕ → ℝ) (Tq L : ℕ) :
    (∀ i u, termination P (hiddenAt P memory Tm q i) u
        = 1 - ∑ k ∈ Finset.range P.M,
            alpha_hat P (hiddenAt P memory Tm q i) k *
              logisticCDF (u_R u) (ksi_hat P (hiddenAt P memory Tm q i) k)
                (beta_hat P (hiddenAt P memory Tm q i) k)) ∧
    forwardTermination P memory Tm q Tq L
      = 1 - ∑ k ∈ Finset.range P.M,
          alpha_hat P ((attnStateAt P memory Tm q Tq).h) k *
            logisticCDF (u_R (L - 1)) (ksi_hat P ((attnStateAt P memory Tm q Tq).h) k)
              (beta_hat P ((attnStateAt P memory Tm q Tq).h) k) :=
  ⟨fun _ _ => rfl, rfl⟩

/-- Counterexample to C2 as stated: a run with one output step, memory length
T = 2 and `input_lengths` = 1.  The claim says the termination value attributed
to the sample is `1 − Σ_k mix_weight_k · CDF(u_R at u = T − 1)` at the step
`output length − 1` (= step 0, the only and hence also final step), but the
gather happens along the memory axis at position `input_lengths − 1 = 0`, whose
right boundary is 0.5, not T − 0.5 = 1.5 — and the two values differ. -/
theorem termination_gather_counterexample :
    forwardTermination P2 memOne 2 qStep 1 1 ≠
      1 - ∑ k ∈ Finset.range P2.M,
        alpha_hat P2 (hiddenAt P2 memOne 2 qStep 0) k *
          logisticCDF (u_R (2 - 1)) (ksi_hat P2 (hiddenAt P2 memOne 2 qStep 0) k)
            (beta_hat P2 (hiddenAt P2 memOne 2 qStep 0) k) := by
  have hh : (attnStateAt P2 memOne 2 qStep 1).h = fun _ => 0 := rfl
  have hlhs : forwardTermination P2 memOne 2 qStep 1 1
      = 1 - (1 + Real.exp ((1 - 0.5) / 1))⁻¹ := by
    unfold forwardTermination
    rw [hh]
    unfold termination alpha_hat ksi_hat beta_hat u_R
    simp [P2, Finset.sum_range_one]
  have hrhs : (1 : ℝ) - ∑ k ∈ Finset.range P2.M,
        alpha_hat P2 (hiddenAt P2 memOne 2 qStep 0) k *
          logisticCDF (u_R (2 - 1)) (ksi_hat P2 (hiddenAt P2 memOne 2 qStep 0) k)
            (beta_hat P2 (hiddenAt P2 memOne 2 qStep 0) k)
      = 1 - (1 + Real.exp ((1 - 1.5) / 1))⁻¹ := by
    have hh0 : hiddenAt P2 memOne 2 qStep 0 = fun _ => 0 := rfl
    rw [hh0]
    unfold alpha_hat ksi_hat beta_hat u_R logisticCDF
    simp [P2, Finset.sum_range_one]
    norm_num
  rw [hlhs, hrhs]
  intro heq
  have hne : (1 + Real.exp ((1 - 0.5) / 1))⁻¹ < (1 + Real.exp ((1 - 1.5) / 1))⁻¹ := by
    apply inv_one_add_exp_lt
    norm_num
  linarith

theorem weights_P1 (h : ℕ → ℝ) :
    weights P1 h 0
      = (1 + Real.exp ((Real.exp (h 0) - 0.5) / Real.exp (h 0)))⁻¹
        - (1 + Real.exp ((Real.exp (h 0) + 0.5) / Real.exp (h 0)))⁻¹ := by
  unfold weights term1 term2 alpha_hat ksi_hat beta_hat u_R u_L
  simp [P1, Finset.sum_range_one, div_self (Real.exp_ne_zero (h 0))]

theorem contextsSeq_P1 (q : ℕ → ℕ → ℝ) (i : ℕ) :
    contextsSeq P1 memOne 1 q i 0 = weights P1 (hiddenAt P1 memOne 1 q i) 0 := by
  have h1 : contextsSeq P1 memOne 1 q i 0
      = context P1 memOne 1 (hiddenAt P1 memOne 1 q i) 0 := rfl
  rw [h1]
  unfold context
  simp [memOne, Finset.sum_range_one]

theorem hiddenAt_P1_qStep_zero : hiddenAt P1 memOne 1 qStep 0 0 = 0 := by
  simp [hiddenAt, attnStateAt, attnStep, attnInit, P1, qStep]

theorem hiddenAt_P1_qStep_one : hiddenAt P1 memOne 1 qStep 1 0 = 1 := by
  simp [hiddenAt, attnStateAt, attnStep, attnInit, P1, qStep]

/-- C3 (code bug): `Attention.forward` computes the per-step context sequence
(`contexts = torch.cat(contexts, dim=1)`, line 73) but its `return` on line 77
hands back the loop variable `context` — the final iteration's context only —
even though the caller's comment (`h_c: [B, T, D]`, tts.py line 121) and the
spec expect one context value per output timestep.  Concretely, over two output
steps the returned context equals the step-1 context, which differs from the
step-0 context that a per-timestep return would have to contain. -/
theorem forward_returns_last_context_only :
    forwardContext P1 memOne 1 qStep 2 = contextsSeq P1 memOne 1 qStep 1 ∧
    contextsSeq P1 memOne 1 qStep 1 0 ≠ contextsSeq P1 memOne 1 qStep 0 0 := by
  constructor
  · rfl
  · have hv0 : contextsSeq P1 memOne 1 qStep 0 0
        = (1 + Real.exp ((1 - 0.5) / 1))⁻¹ - (1 + Real.exp ((1 + 0.5) / 1))⁻¹ := by
      rw [contextsSeq_P1, weights_P1, hiddenAt_P1_qStep_zero, Real.exp_zero]
    have hv1 : contextsSeq P1 memOne 1 qStep 1 0
        = (1 + Real.exp ((Real.exp 1 - 0.5) / Real.exp 1))⁻¹
          - (1 + Real.exp ((Real.exp 1 + 0.5) / Real.exp 1))⁻¹ := by
      rw [contextsSeq_P1, weights_P1, hiddenAt_P1_qStep_one]
    rw [hv0, hv1]
    have hE : (1 : ℝ) < Real.exp 1 := by
      have h9 := Real.exp_one_gt_d9
      linarith
    have hEpos : (0 : ℝ) < Real.exp 1 := by positivity
    have hA : ((1 : ℝ) - 0.5) / 1 < (Real.exp 1 - 0.5) / Real.exp 1 := by
      rw [div_lt_div_iff₀ one_pos hEpos]
      nlinarith
    have hB : (Real.exp 1 + 0.5) / Real.exp 1 < ((1 : ℝ) + 0.5) / 1 := by
      rw [div_lt_div_iff₀ hEpos one_pos]
      nlinarith
    have hAlt := inv_one_add_exp_lt hA
    have hBlt := inv_one_add_exp_lt hB
    intro heq
    linarith

/-- C6: in the training-mode forward of the Sequence Model, every (sample,
timestep) pair with timestep index at or beyond the sample's true output length
has mean forced to exactly 0 and scale forced to exactly 1/sqrt(2*pi), for
every frequency bin and every mixture component; positions strictly below the
true length are unchanged by the mask; and the returned mixture weight is the
unmasked softmax at every position. -/
theorem length_mask_spec (K : ℕ) (theta : ℕ → ℕ → ℕ → ℕ → ℝ) (lens : ℕ → ℕ)
    (b m t k : ℕ) :
    (lens b ≤ t → mu_masked theta lens b m t k = 0 ∧
        std_masked K theta lens b m t k = 1 / Real.sqrt (2 * Real.pi)) ∧
    (t < lens b → mu_masked theta lens b m t k = mu theta b m t k ∧
        std_masked K theta lens b m t k = std K theta b m t k) ∧
    forwardPi K theta b m t k = pi K theta b m t k := by
  refine ⟨?_, ?_, rfl⟩
  · intro hle
    have hm : lenMask lens b t := by
      unfold lenMask
      omega
    constructor
    · simp [mu_masked, hm]
    · simp [std_masked, hm]
  · intro hlt
    have hm : ¬ lenMask lens b t := by
      unfold lenMask
      omega
    constructor
    · simp [mu_masked, hm]
    · simp [std_masked, hm]

/-- Witness for C6: with true length 1, timestep 1 is masked to the constants
and timestep 0 is left unchanged. -/
theorem length_mask_spec_witness :
    ((1 : ℕ) ≤ 1 ∧ (0 : ℕ) < 1) ∧
    (mu_masked (fun _ _ _ _ => 5) (fun _ => 1) 0 0 1 0 = 0 ∧
     std_masked 1 (fun _ _ _ _ => 5) (fun _ => 1) 0 0 1 0 = 1 / Real.sqrt (2 * Real.pi)) ∧
    (mu_masked (fun _ _ _ _ => 5) (fun _ => 1) 0 0 0 0 = mu (fun _ _ _ _ => 5) 0 0 0 0 ∧
     std_masked 1 (fun _ _ _ _ => 5) (fun _ => 1) 0 0 0 0 = std 1 (fun _ _ _ _ => 5) 0 0 0 0) :=
  ⟨⟨by decide, by decide⟩,
   (length_mask_spec 1 (fun _ _ _ _ => 5) (fun _ => 1) 0 0 1 0).1 (by decide),
   (length_mask_spec 1 (fun _ _ _ _ => 5) (fun _ => 1) 0 0 0 0).2.1 (by decide)⟩

/-- The inference loop of `TTS.sample` can never run to completion: its final
iteration (i = T − 1, with T the time length of the buffers) writes the time
slice `x_t[:, :, T]`, one past the end of the buffer. -/
theorem sampleLoop_out_of_bounds
    (muF : ℕ → List (ℕ → ℝ) → List (ℕ → ℝ) → ℕ → ℕ → ℝ) :
    ∀ fuel i xt xf, xt.length = i + fuel → 1 ≤ fuel →
      sampleLoop muF i fuel xt xf = none := by
  intro fuel
  induction fuel with
  | zero =>
    intro i xt xf _ hf
    omega
  | succ n ih =>
    intro i xt xf hlen _
    show (if i + 1 < xt.length ∧ i + 1 < xf.length then _ else none) = none
    by_cases hc : i + 1 < xt.length ∧ i + 1 < xf.length
    · rw [if_pos hc]
      cases n with
      | zero =>
        have : i + 1 < i + 1 := by omega
        omega
      | succ p =>
        apply ih
        · rw [List.length_set]
          omega
        · omega
    · rw [if_neg hc]

/-- C7 (code bug): at the failing input — buffers of time length 2 (any
contents, any per-step mixture computation) — `TTS.sample`'s loop does not
complete: the step i = 1 write `x_t[:, :, 2]` is out of bounds, so the
embedded loop evaluates to `none` instead of returning mixture parameters and
a termination value. -/
theorem tts_sample_incomplete :
    tts_sample (fun _ _ _ _ _ => 0) [fun _ => 0, fun _ => 0] [fun _ => 0, fun _ => 0]
      = none := by
  rfl

theorem length_le_batchMax {α : Type} :
    ∀ (l : List (List α)) (x : List α), x ∈ l → x.length ≤ batchMax l := by
  intro l
  induction l with
  | nil =>
    intro x hx
    cases hx
  | cons a t ih =>
    intro x hx
    unfold batchMax at *
    simp only [List.map_cons, List.foldr_cons]
    rcases List.mem_cons.mp hx with h | h
    · rw [h]
      exact le_max_left _ _
    · exact le_trans (ih x h) (le_max_right _ _)

theorem padTo_take {α : Type} (z : α) (n : ℕ) (x : List α) :
    (padTo z n x).take x.length = x :=
  List.take_left x _

theorem padTo_length {α : Type} (z : α) {n : ℕ} {x : List α} (h : x.length ≤ n) :
    (padTo z n x).length = n := by
  unfold padTo
  rw [List.length_append, List.length_replicate]
  omega

theorem getD_map_lt {α β : Type} (f : α → β) (l : List α) (j : ℕ) (d : β) (d0 : α)
    (hj : j < l.length) : (l.map f).getD j d = f (l.getD j d0) := by
  rw [List.getD_eq_getElem?_getD, List.getD_eq_getElem?_getD, List.getElem?_map,
      List.getElem?_eq_getElem hj]
  rfl

theorem getD_mem_lt {α : Type} (l : List α) (j : ℕ) (d : α) (hj : j < l.length) :
    l.getD j d ∈ l := by
  rw [List.getD_eq_getElem?_getD, List.getElem?_eq_getElem hj]
  exact List.getElem_mem hj

theorem padSequence_getD {α : Type} (z : α) (l : List (List α)) (j : ℕ)
    (hj : j < l.length) :
    (padSequence z l).getD j [] = padTo z (batchMax l) (l.getD j []) := by
  unfold padSequence
  rw [List.getD_eq_getElem?_getD, List.getD_eq_getElem?_getD, List.getElem?_map,
      List.getElem?_eq_getElem hj]
  rfl

theorem padSequence_family {α : Type} (z : α) (l : List (List α)) (j : ℕ)
    (hj : j < l.length) :
    (padSequence z l).getD j []
      = l.getD j [] ++ List.replicate (batchMax l - (l.getD j []).length) z ∧
    ((padSequence z l).getD j []).length = batchMax l ∧
    ((padSequence z l).getD j []).take ((l.getD j []).length) = l.getD j [] := by
  have hpad := padSequence_getD z l j hj
  refine ⟨hpad, ?_, ?_⟩
  · rw [hpad]
    exact padTo_length z (length_le_batchMax l _ (getD_mem_lt l j [] hj))
  · rw [hpad]
    exact padTo_take z _ _

/-- C8: both collate functions right-pad each tensor family independently with
zeros to the batch maximum along the variable axis, record each sample's true
pre-padding length in a parallel integer vector, keep sample j of the output
aligned with sample j of the input, and trimming each padded output back to the
recorded length recovers the original data.  The target spectrogram's recorded
length is the `audio_lengths` entry taken from the source spectrogram
(`x[1].shape[1]` resp. `x[0].shape[1]`), so its round trip uses the Feature
Pair time-alignment contract (equal source/target time lengths). -/
theorem collate_pads_and_round_trips (F : ℕ)
    (batch : List (List ℤ × List (List ℝ) × List (List ℝ)))
    (batch2 : List (List (List ℝ) × List (List ℝ))) (j : ℕ)
    (hj : j < batch.length) (hj2 : j < batch2.length)
    (halign : (batch.getD j ([], [], [])).2.2.length = (batch.getD j ([], [], [])).2.1.length)
    (halign2 : (batch2.getD j ([], [])).2.length = (batch2.getD j ([], [])).1.length) :
    (TextCollate F batch).1.getD j []
      = (batch.getD j ([], [], [])).1
        ++ List.replicate
            (batchMax (batch.map (fun x => x.1)) - (batch.getD j ([], [], [])).1.length)
            (0 : ℤ) ∧
    (TextCollate F batch).2.1.getD j 0 = (batch.getD j ([], [], [])).1.length ∧
    ((TextCollate F batch).1.getD j []).length = batchMax (batch.map (fun x => x.1)) ∧
    ((TextCollate F batch).1.getD j []).take ((batch.getD j ([], [], [])).1.length)
      = (batch.getD j ([], [], [])).1 ∧
    (TextCollate F batch).2.2.2.2.getD j 0 = (batch.getD j ([], [], [])).2.1.length ∧
    ((TextCollate F batch).2.2.1.getD j []).take ((batch.getD j ([], [], [])).2.1.length)
      = (batch.getD j ([], [], [])).2.1 ∧
    ((TextCollate F batch).2.2.2.1.getD j []).take ((batch.getD j ([], [], [])).2.1.length)
      = (batch.getD j ([], [], [])).2.2 ∧
    (AudioCollate F batch2).2.2.getD j 0 = (batch2.getD j ([], [])).1.length ∧
    ((AudioCollate F batch2).1.getD j []).take ((batch2.getD j ([], [])).1.length)
      = (batch2.getD j ([], [])).1 ∧
    ((AudioCollate F batch2).2.1.getD j []).take ((batch2.getD j ([], [])).1.length)
      = (batch2.getD j ([], [])).2 := by
  have hjs : j < (batch.map (fun x => x.1)).length := by
    simpa using hj
  have hjsrc : j < (batch.map (fun x => x.2.1)).length := by
    simpa using hj
  have hjtgt : j < (batch.map (fun x => x.2.2)).length := by
    simpa using hj
  have hjsrc2 : j < (batch2.map (fun x => x.1)).length := by
    simpa using hj2
  have hjtgt2 : j < (batch2.map (fun x => x.2)).length := by
    simpa using hj2
  have hseq : (batch.map (fun x => x.1)).getD j [] = (batch.getD j ([], [], [])).1 :=
    getD_map_lt _ _ _ _ _ hj
  have hsrc : (batch.map (fun x => x.2.1)).getD j [] = (batch.getD j ([], [], [])).2.1 :=
    getD_map_lt _ _ _ _ _ hj
  have htgt : (batch.map (fun x => x.2.2)).getD j [] = (batch.getD j ([], [], [])).2.2 :=
    getD_map_lt _ _ _ _ _ hj
  have hsrc2 : (batch2.map (fun x => x.1)).getD j [] = (batch2.getD j ([], [])).1 :=
    getD_map_lt _ _ _ _ _ hj2
  have htgt2 : (batch2.map (fun x => x.2)).getD j [] = (batch2.getD j ([], [])).2 :=
    getD_map_lt _ _ _ _ _ hj2
  have fseq := padSequence_family (0 : ℤ) (batch.map (fun x => x.1)) j hjs
  have fsrc := padSequence_family (List.replicate F (0 : ℝ)) (batch.map (fun x => x.2.1)) j hjsrc
  have ftgt := padSequence_family (List.replicate F (0 : ℝ)) (batch.map (fun x => x.2.2)) j hjtgt
  have fsrc2 := padSequence_family (List.replicate F (0 : ℝ)) (batch2.map (fun x => x.1)) j hjsrc2
  have ftgt2 := padSequence_family (List.replicate F (0 : ℝ)) (batch2.map (fun x => x.2)) j hjtgt2
  rw [hseq] at fseq
  rw [hsrc] at fsrc
  rw [htgt] at ftgt
  rw [hsrc2] at fsrc2
  rw [htgt2] at ftgt2
  refine ⟨fseq.1, ?_, fseq.2.1, fseq.2.2, ?_, fsrc.2.2, ?_, ?_, fsrc2.2.2, ?_⟩
  · show ((batch.map (fun x => x.1)).map List.length).getD j 0
      = (batch.getD j ([], [], [])).1.length
    rw [getD_map_lt List.length _ j 0 [] hjs, hseq]
  · show (batch.map (fun x => x.2.1.length)).getD j 0 = (batch.getD j ([], [], [])).2.1.length
    exact getD_map_lt _ _ _ _ ([], [], []) hj
  · rw [← halign]
    exact ftgt.2.2
  · show (batch2.map (fun x => x.1.length)).getD j 0 = (batch2.getD j ([], [])).1.length
    exact getD_map_lt _ _ _ _ ([], []) hj2
  · rw [← halign2]
    exact ftgt2.2.2

/-- Witness for C8 at the concrete two-sample batches, sample index 0. -/
theorem collate_pads_and_round_trips_witness :
    ((0 : ℕ) < exTextBatch.length ∧ (0 : ℕ) < exAudioBatch.length ∧
     (exTextBatch.getD 0 ([], [], [])).2.2.length = (exTextBatch.getD 0 ([], [], [])).2.1.length ∧
     (exAudioBatch.getD 0 ([], [])).2.length = (exAudioBatch.getD 0 ([], [])).1.length) ∧
    ((TextCollate 1 exTextBatch).1.getD 0 []
      = (exTextBatch.getD 0 ([], [], [])).1
        ++ List.replicate
            (batchMax (exTextBatch.map (fun x => x.1))
              - (exTextBatch.getD 0 ([], [], [])).1.length) (0 : ℤ) ∧
    (TextCollate 1 exTextBatch).2.1.getD 0 0 = (exTextBatch.getD 0 ([], [], [])).1.length ∧
    ((TextCollate 1 exTextBatch).1.getD 0 []).length
      = batchMax (exTextBatch.map (fun x => x.1)) ∧
    ((TextCollate 1 exTextBatch).1.getD 0 []).take ((exTextBatch.getD 0 ([], [], [])).1.length)
      = (exTextBatch.getD 0 ([], [], [])).1 ∧
    (TextCollate 1 exTextBatch).2.2.2.2.getD 0 0
      = (exTextBatch.getD 0 ([], [], [])).2.1.length ∧
    ((TextCollate 1 exTextBatch).2.2.1.getD 0 []).take
        ((exTextBatch.getD 0 ([], [], [])).2.1.length)
      = (exTextBatch.getD 0 ([], [], [])).2.1 ∧
    ((TextCollate 1 exTextBatch).2.2.2.1.getD 0 []).take
        ((exTextBatch.getD 0 ([], [], [])).2.1.length)
      = (exTextBatch.getD 0 ([], [], [])).2.2 ∧
    (AudioCollate 1 exAudioBatch).2.2.getD 0 0 = (exAudioBatch.getD 0 ([], [])).1.length ∧
    ((AudioCollate 1 exAudioBatch).1.getD 0 []).take ((exAudioBatch.getD 0 ([], [])).1.length)
      = (exAudioBatch.getD 0 ([], [])).1 ∧
    ((AudioCollate 1 exAudioBatch).2.1.getD 0 []).take ((exAudioBatch.getD 0 ([], [])).1.length)
      = (exAudioBatch.getD 0 ([], [])).2) :=
  ⟨⟨by decide, by decide, by decide, by decide⟩,
   collate_pads_and_round_trips 1 exTextBatch exAudioBatch 0
     (by decide) (by decide) (by decide) (by decide)⟩

theorem mem_of_mem_split95 {α : Type} (train : Bool) (l : List α) (s : α)
    (hs : s ∈ split95 train l) : s ∈ l := by
  unfold split95 at hs
  cases train with
  | false =>
    rw [if_neg (by simp)] at hs
    exact List.drop_subset _ _ hs
  | true =>
    rw [if_pos rfl] at hs
    exact List.take_subset _ _ hs

/-- C9 (amended): the audio-text dataset applies the strict duration filter for
both dataset kinds — every enumerated sample of the KSS branch comes from a
transcript line with duration strictly below the configured maximum, and every
enumerated sample of the Blizzard branch has audio length strictly below the
maximum — while the audio-only dataset (see the accompanying counterexample)
applies no duration filter at all. -/
theorem audio_text_duration_filter (maxDur : ℚ) (getLen : String → ℚ)
    (klines : List KSSLine) (blines : List String)
    (sh1 sh2 : List (String × String) → List (String × String))
    (hsh1 : ∀ l, (sh1 l).Perm l) (hsh2 : ∀ l, (sh2 l).Perm l) (train : Bool) :
    (∀ s ∈ audioTextKSS maxDur klines sh1 train,
        ∃ l ∈ klines, s = (l.wav_name, l.text) ∧ l.length < maxDur) ∧
    (∀ s ∈ audioTextBlizzard maxDur getLen blines sh2 train, getLen s.1 < maxDur) := by
  constructor
  · intro s hs
    have h1 : s ∈ sh1 (kssDataset maxDur klines) := mem_of_mem_split95 _ _ _ hs
    have h2 : s ∈ kssDataset maxDur klines := (hsh1 _).subset h1
    unfold kssDataset at h2
    rcases List.mem_map.mp h2 with ⟨l, hlf, heq⟩
    rcases List.mem_filter.mp hlf with ⟨hlm, hp⟩
    exact ⟨l, hlm, heq.symm, by simpa using hp⟩
  · intro s hs
    have h1 : s ∈ sh2 (blizzardDataset maxDur getLen blines) := mem_of_mem_split95 _ _ _ hs
    have h2 : s ∈ blizzardDataset maxDur getLen blines := (hsh2 _).subset h1
    unfold blizzardDataset at h2
    have hsplit := List.mem_filter.mp h2
    simpa using hsplit.2

/-- Witness for C9's amended theorem: a single transcript line of duration 1
with maximum 10 survives enumeration, and every enumerated sample is traced
back to a below-maximum line. -/
theorem audio_text_duration_filter_witness :
    ((∀ l : List (String × String), (id l).Perm l) ∧
     ("a", "t") ∈ audioTextKSS 10 [kssLineEx] id false) ∧
    ∃ l ∈ [kssLineEx], ("a", "t") = (l.wav_name, l.text) ∧ l.length < 10 :=
  ⟨⟨fun l => List.Perm.refl l, by decide⟩,
   (audio_text_duration_filter 10 (fun _ => 1) [kssLineEx] [] id id
      (fun l => List.Perm.refl l) (fun l => List.Perm.refl l) false).1
     ("a", "t") (by decide)⟩

/-- Counterexample to C9 as stated: the audio-only dataset performs no duration
filtering.  A single-file list (where every permutation, in particular the
seeded shuffle, is the identity) whose file has duration exactly equal to the
configured maximum of 10 is still enumerated, violating "every sample has
duration strictly below the configured maximum". -/
theorem audio_only_unfiltered_counterexample :
    ∃ s ∈ audioOnlyFileList ["a.wav"] id false, ¬ ((fun _ : String => (10 : ℚ)) s < 10) := by
  refine ⟨"a.wav", by decide, by norm_num⟩

/-- C10: constructing the Sequence Model succeeds exactly for tier 1; any other
tier yields the assertion error 'TTS tier must be 1', so no model instance
exists for it. -/
theorem tts_init_tier_check (t : ℤ) :
    ((∃ m : TTSModel, tts_init t = Except.ok m) ↔ t = 1) ∧
    (t ≠ 1 → tts_init t = Except.error "TTS tier must be 1") ∧
    (t = 1 → tts_init t = Except.ok ⟨t⟩) := by
  unfold tts_init
  refine ⟨⟨?_, ?_⟩, ?_, ?_⟩
  · rintro ⟨m, hm⟩
    by_cases h : t = 1
    · exact h
    · rw [if_neg h] at hm
      cases hm
  · intro h
    exact ⟨⟨t⟩, by rw [if_pos h]⟩
  · intro h
    rw [if_neg h]
  · intro h
    rw [if_pos h]

/-- Witness for C10 at tiers 2 (rejected with the exact message) and 1
(accepted). -/
theorem tts_init_tier_check_witness :
    ((2 : ℤ) ≠ 1 ∧ tts_init 2 = Except.error "TTS tier must be 1") ∧
    ((1 : ℤ) = 1 ∧ tts_init 1 = Except.ok ⟨1⟩) :=
  ⟨⟨by decide, (tts_init_tier_check 2).2.1 (by decide)⟩,
   ⟨rfl, (tts_init_tier_check 1).2.2 rfl⟩⟩

end MelNet

end
